import Mathlib

/-!
Verification of the docsonnet extraction/transform pipeline
(`pkg/docsonnet/load.go`) against its natural-language specification.

The Go source is shallowly embedded: pure helpers become Lean functions,
the jsonnet VM and the byte-level JSON codec (external collaborators per
the spec) are modelled abstractly, and fallible Go functions returning
`(value, error)` become `Except`/`Option` values.
-/

namespace Docsonnet

/-! ## Path helpers (Go `path/filepath` on slash-separated paths) -/

/-- Go `strings.HasPrefix(s, pre)`: `pre` is a prefix of `s`. -/
def goStartsWith (s pre : String) : Bool :=
  pre.toList.isPrefixOf s.toList

/-- Split a character list at every occurrence of `sep`, keeping empty
components, as Go `strings.Split` does for a one-character separator.
`acc` holds the (reversed) characters of the current component. -/
def splitCharAux (sep : Char) : List Char → List Char → List String
  | [], acc => [String.mk acc.reverse]
  | c :: rest, acc =>
    if c = sep then String.mk acc.reverse :: splitCharAux sep rest []
    else splitCharAux sep rest (c :: acc)

/-- Components of `s` separated by `sep`. -/
def splitChar (s : String) (sep : Char) : List String :=
  splitCharAux sep s.toList []

/-- Go `filepath.Base` (slash separators): empty input gives `"."`,
trailing slashes are stripped, the part after the last slash is returned,
and an all-slash input gives `"/"`. -/
def goBase (path : String) : String :=
  if path = "" then "."
  else if (path.toList.reverse.dropWhile (fun c => c = '/')).takeWhile
      (fun c => c ≠ '/') = [] then "/"
  else String.mk ((path.toList.reverse.dropWhile (fun c => c = '/')).takeWhile
      (fun c => c ≠ '/')).reverse

/-- One step of the component-stack formulation of Go `filepath.Clean`:
empty and `"."` components vanish; `".."` pops a non-`".."` entry, is
dropped at the root, and accumulates otherwise; everything else pushes.
The stack `acc` is kept reversed. -/
def cleanStep (rooted : Bool) (acc : List String) (c : String) : List String :=
  if c = "" ∨ c = "." then acc
  else if c = ".." then
    match acc with
    | [] => if rooted then [] else [".."]
    | top :: rest => if top = ".." then ".." :: acc else rest
  else c :: acc

/-- Join components with `"/"`. -/
def joinComps : List String → String
  | [] => ""
  | [c] => c
  | c :: rest => c ++ "/" ++ joinComps rest

/-- Go `filepath.Clean` (slash separators), in the standard
component-stack formulation equivalent to the lazybuf loop in the Go
standard library. -/
def goClean (path : String) : String :=
  if path = "" then "."
  else
    let rooted := path.toList.headD ' ' = '/'
    let stack := (splitChar path '/').foldl (cleanStep rooted) []
    let out := (if rooted then "/" else "") ++ joinComps stack.reverse
    if out = "" then "." else out

/-- Go `filepath.Join`: drop empty elements, join with `"/"`, `Clean`
the result; all-empty input gives `""`. -/
def goJoin (elems : List String) : String :=
  let nonempty := elems.filter (fun e => e ≠ "")
  if nonempty = [] then "" else goClean (joinComps nonempty)

/-! ## Bundled resource store (`embed.FS`) and options -/

/-- The embedded filesystem, as a name-to-content association list. -/
abbrev EmbedFS := List (String × String)

/-- Association-list lookup with decidable string equality. -/
def alookup {α : Type} : List (String × α) → String → Option α
  | [], _ => none
  | (k, v) :: rest, key => if k = key then some v else alookup rest key

/-- Go `embed.FS.ReadFile`: the content when the name is present, an
`fs.PathError` (modelled by its message) otherwise. -/
def EmbedFS.ReadFile (fs : EmbedFS) (name : String) : Except String String :=
  match alookup fs name with
  | some c => .ok c
  | none => .error ("open " ++ name ++ ": file does not exist")

/-- Go `docsonnet.Opts`. -/
structure Opts where
  JPath : List String
  EmbeddedFS : EmbedFS

/-! ## Filesystem importer (go-jsonnet, external collaborator) -/

/-- The outcome of a go-jsonnet `Importer.Import` call: the Go triple
`(contents, foundAt, err)`, with `contents` the zero value `""` on error. -/
structure ImportResult where
  contents : String
  foundAt : String
  err : Option String
deriving Repr, DecidableEq

/-- The on-disk world: absolute file path to content. -/
abbrev Disk := List (String × String)

/-- Directory of a path, up to and including the final slash (empty when
there is no slash), as `path.Split` computes it. -/
def dirOf (p : String) : String :=
  String.mk (p.toList.reverse.dropWhile (fun c => c ≠ '/')).reverse

/-- Append a file name to a directory, inserting a slash when needed. -/
def joinDir (d file : String) : String :=
  if d = "" then file
  else if d.toList.reverse.headD ' ' = '/' then d ++ file
  else d ++ "/" ++ file

/-- go-jsonnet `FileImporter`, holding the configured library paths. -/
structure FileImporter where
  JPaths : List String
deriving Repr, DecidableEq

/-- Modelled from the spec: go-jsonnet `FileImporter.Import` is outside
this repository; per the spec it performs plain ordered-search-path
filesystem resolution — the directory of the importing file implicitly
first, then the configured search paths in order, the first directory
containing a matching file winning. -/
def FileImporter.importFromDisk (fi : FileImporter) (disk : Disk)
    (importedFrom importedPath : String) : ImportResult :=
  let dirs := dirOf importedFrom :: fi.JPaths
  match dirs.findSome?
      (fun d => (alookup disk (joinDir d importedPath)).map
        (fun c => (c, joinDir d importedPath))) with
  | some (c, full) => ⟨c, full, none⟩
  | none => ⟨"", "", some ("couldn't open import \"" ++ importedPath ++
      "\": no match locally or in the Jsonnet library paths")⟩

/-! ## The docsonnet importer (`load.go`) -/

/-- Go `importer`: wraps `jsonnet.FileImporter` to statically provide
doc-util, bundled with the binary. -/
structure importer where
  fi : FileImporter
  embedded : List (String × String)
deriving Repr, DecidableEq

/-- Go `newImporter`: eagerly reads the two bundled doc-util scripts and
fails if either read fails; on success the embedded map is keyed by base
name and the file importer is configured with the caller-supplied JPath. -/
def newImporter (opts : Opts) : Except String importer :=
  match opts.EmbeddedFS.ReadFile "doc-util/main.libsonnet" with
  | .error e => .error e
  | .ok dmain =>
    match opts.EmbeddedFS.ReadFile "doc-util/render.libsonnet" with
    | .error e => .error e
    | .ok drender =>
      .ok { fi := { JPaths := opts.JPath },
            embedded := [("main.libsonnet", dmain),
                         ("render.libsonnet", drender)] }

/-- Go `docUtilPathPrefixes`, in source order. -/
def docUtilPathPrefixes : List String :=
  ["doc-util/",
   "github.com/jsonnet-libs/docsonnet/doc-util/",
   "./render.libsonnet"]

/-- Go `importer.loadFromEmbed`: look the base name up in the embedded
map and report the synthetic location `"<internal>/" + Join("doc-util", base)`;
a missing entry yields the error `"<path> does not exist"`. -/
def importer.loadFromEmbed (i : importer) (importedPath : String) : ImportResult :=
  let fbase := goBase importedPath
  let fpath := goJoin ["doc-util", fbase]
  let loadPath := "<internal>/" ++ fpath
  match alookup i.embedded fbase with
  | none => ⟨"", loadPath, some (fpath ++ " does not exist")⟩
  | some conts => ⟨conts, loadPath, none⟩

/-- The loop body of Go `importer.Import`: walk the recognized internal
path markers in order; on the first match dispatch to the embedded
store, otherwise fall through to the filesystem importer. -/
def importer.importLoop (i : importer) (disk : Disk)
    (importedFrom importedPath : String) : List String → ImportResult
  | [] => i.fi.importFromDisk disk importedFrom importedPath
  | p :: rest =>
    if goStartsWith importedPath p then i.loadFromEmbed importedPath
    else i.importLoop disk importedFrom importedPath rest

/-- Go `importer.Import`. -/
def importer.Import (i : importer) (disk : Disk)
    (importedFrom importedPath : String) : ImportResult :=
  i.importLoop disk importedFrom importedPath docUtilPathPrefixes

/-! ## Jsonnet VM (evaluator session) -/

/-- The import mechanism installed on a VM: the default one `MakeVM`
starts with, or a custom importer installed with `vm.Importer`. -/
inductive VMImporter where
  | defaultFileImporter
  | custom (i : importer)
deriving Repr, DecidableEq

/-- The observable session configuration of a `jsonnet.VM`: which import
mechanism is installed and the external code bindings, in the order they
were set. -/
structure VM where
  vmImporter : VMImporter
  extCodes : List (String × String)
deriving Repr, DecidableEq

/-- Go `jsonnet.MakeVM`: a fresh VM with the default importer and no
external bindings. -/
def MakeVM : VM :=
  { vmImporter := .defaultFileImporter, extCodes := [] }

/-- Go `vm.Importer(imp)`: replaces the import mechanism. -/
def VM.Importer (vm : VM) (i : importer) : VM :=
  { vm with vmImporter := .custom i }

/-- Go `vm.ExtCode(key, code)`: records an external code binding. -/
def VM.ExtCode (vm : VM) (key code : String) : VM :=
  { vm with extCodes := vm.extCodes ++ [(key, code)] }

/-- Go `newVM`: sets up the Jsonnet VM with the importer that statically
provides doc-util and binds `"main"` to an import of the entry file. -/
def newVM (mainFName : String) (opts : Opts) : Except String VM :=
  match newImporter opts with
  | .error e => .error e
  | .ok imp =>
    .ok ((MakeVM.Importer imp).ExtCode "main"
      ("(import \"" ++ mainFName ++ "\")"))

/-! ## Raw metadata tree and the Package object model

The strict object model (`Package`, `Field`) and the loosely-typed raw
tree are mutual inductives so that all recursion below is structural. -/

/-- A typed documentation field of a package; the spec example only
constrains its descriptive text. -/
structure Field where
  help : String
deriving Repr, DecidableEq

mutual
/-- Modelled from the spec: the strict documentation object model built
by the transform stage (`*docsonnet.Package`, defined outside `load.go`):
an identity, descriptive text, typed fields, and exclusively-owned nested
sub-packages. -/
inductive Package where
  | mk (name : String) (help : String)
      (fields : List (String × Field)) (subs : SubList)
/-- The keyed children of a package. -/
inductive SubList where
  | nil
  | cons (key : String) (p : Package) (rest : SubList)
end

/-- The keys of a list of sub-packages, in order. -/
def SubList.keys : SubList → List String
  | .nil => []
  | .cons k _ rest => k :: rest.keys

mutual
/-- Modelled from the spec: the raw metadata tree — an untyped tree of
scalars, ordered sequences, and key-to-value mappings — produced by
deserializing the evaluator output. -/
inductive Raw where
  | str (s : String)
  | seq (xs : RawSeq)
  | map (entries : RawMap)
/-- An ordered sequence of raw nodes. -/
inductive RawSeq where
  | nil
  | cons (r : Raw) (rest : RawSeq)
/-- An ordered key-to-value mapping of raw nodes. -/
inductive RawMap where
  | nil
  | cons (key : String) (r : Raw) (rest : RawMap)
end

/-- First value bound to `key` in a raw mapping. -/
def RawMap.lookup : RawMap → String → Option Raw
  | .nil, _ => none
  | .cons k r rest, key => if k = key then some r else rest.lookup key

/-- Concatenation of raw mappings. -/
def appendMap : RawMap → RawMap → RawMap
  | .nil, m => m
  | .cons k v rest, m => .cons k v (appendMap rest m)

/-- The string bound to `key`, or `""` when absent or not a scalar. -/
def getStr (m : RawMap) (key : String) : String :=
  match m.lookup key with
  | some (.str s) => s
  | _ => ""

/-- Go `ds` (defined outside `load.go`): the intermediate loosely-typed
structure `json.Unmarshal` fills in, modelled as the raw tree itself. -/
abbrev ds := Raw

mutual
/-- Modelled from the spec: `fastLoad` (defined outside `load.go`, total
per its use `p := fastLoad(d)` in `Transform`) converts the raw tree to
the strict model, classifying each mapping node by its marker keys:
an `"info"` entry marks a package, a `"field"` entry marks a field. -/
def fastLoad : Raw → Package
  | .map entries =>
    let info := match entries.lookup "info" with
      | some (.map im) => (getStr im "name", getStr im "help")
      | _ => ("", "")
    let rest := loadEntries entries
    .mk info.1 info.2 rest.1 rest.2
  | _ => .mk "" "" [] .nil
/-- Classify the non-`"info"` entries of a package mapping, collecting
fields and sub-packages in the order the mapping lists them. -/
def loadEntries : RawMap → List (String × Field) × SubList
  | .nil => ([], .nil)
  | .cons k v rest =>
    let acc := loadEntries rest
    if k = "info" then acc
    else
      match v with
      | .map m =>
        match m.lookup "info" with
        | some _ => (acc.1, .cons k (fastLoad (.map m)) acc.2)
        | none =>
          match m.lookup "field" with
          | some (.str h) => ((k, ⟨h⟩) :: acc.1, acc.2)
          | _ => acc
      | _ => acc
end

/-- The raw-tree encoding of a field. -/
def encodeField (f : Field) : Raw :=
  .map (.cons "field" (.str f.help) .nil)

/-- The raw-tree encoding of the fields of a package, in order. -/
def encodeFields : List (String × Field) → RawMap
  | [] => .nil
  | (k, f) :: rest => .cons k (encodeField f) (encodeFields rest)

/-- The `"info"` mapping carrying a package's identity and text. -/
def infoRaw (name help : String) : Raw :=
  .map (.cons "name" (.str name) (.cons "help" (.str help) .nil))

mutual
/-- Modelled from the spec: `serialize`, the raw-tree encoding used
between the evaluator session and the transform stage — a package is a
mapping whose `"info"` entry carries identity and text, followed by its
field and sub-package entries. -/
def encodePackage : Package → Raw
  | .mk name help fields subs =>
    .map (.cons "info" (infoRaw name help)
      (appendMap (encodeFields fields) (encodeSubs subs)))
/-- Raw-tree encoding of a sub-package list, in order. -/
def encodeSubs : SubList → RawMap
  | .nil => .nil
  | .cons k p rest => .cons k (encodePackage p) (encodeSubs rest)
end

/-- True when `key` does not occur in the list. -/
def keyAbsent (key : String) : List String → Bool
  | [] => true
  | k :: rest => if k = key then false else keyAbsent key rest

/-- True when the keys are pairwise distinct. -/
def distinctKeys : List String → Bool
  | [] => true
  | k :: rest => keyAbsent k rest && distinctKeys rest

mutual
/-- Well-formedness of a package per the spec: keys are unique within a
mapping, and no field or sub-package is keyed by the `"info"` marker. -/
def Package.wfb : Package → Bool
  | .mk _ _ fields subs =>
    let ks := fields.map Prod.fst ++ subs.keys
    keyAbsent "info" ks && distinctKeys ks && subs.allWf
/-- Every sub-package in the list is well-formed. -/
def SubList.allWf : SubList → Bool
  | .nil => true
  | .cons _ p rest => p.wfb && rest.allWf
end

/-! ## The transform stage, extraction and loading (`load.go`) -/

/-- Modelled from the spec: the byte-level JSON codec (`encoding/json`)
is an external collaborator, so a byte string handed to `Transform` is
modelled by its deserialization outcome — either the unique raw tree it
decodes to, or a decode failure with its message. -/
inductive WireData where
  | wellFormed (tree : Raw)
  | malformed (msg : String)

/-- Go `json.Unmarshal(data, &d)` for the intermediate `ds` value. -/
def unmarshalDS : WireData → Except String ds
  | .wellFormed t => .ok t
  | .malformed e => .error e

/-- The serialization of a package on the wire. -/
def serialize (p : Package) : WireData :=
  .wellFormed (encodePackage p)

/-- What a call of Go `Transform` does: either the process dies by
`log.Fatalln`, or the function returns its `(*Package, error)` pair. -/
inductive TransformResult where
  | fatal (msg : String)
  | ok (p : Package) (err : Option String)

/-- Go `Transform`: unmarshal the input into `ds` — aborting the whole
process via `log.Fatalln` when unmarshalling fails — then return
`(&fastLoad(d), nil)`. -/
def Transform (data : WireData) : TransformResult :=
  match unmarshalDS data with
  | .error err => .fatal err
  | .ok d => .ok (fastLoad d) none

/-- Go `Extract`, with the opaque evaluator as an explicit collaborator:
read the extraction driver `load.libsonnet` from the embedded data, set
up the VM, then evaluate the driver as an anonymous snippet. -/
def Extract (filename : String) (opts : Opts)
    (evalSnippet : VM → String → String → Except String WireData) :
    Except String WireData :=
  match opts.EmbeddedFS.ReadFile "load.libsonnet" with
  | .error e => .error e
  | .ok load =>
    match newVM filename opts with
    | .error e => .error e
    | .ok vm => evalSnippet vm "load.libsonnet" load

/-- Go `Load`: `Extract`, then `Transform` of the extracted data. -/
def Load (filename : String) (opts : Opts)
    (evalSnippet : VM → String → String → Except String WireData) :
    Except String TransformResult :=
  match Extract filename opts evalSnippet with
  | .error e => .error e
  | .ok data => .ok (Transform data)

/-- Go `RenderWithJsonnet` up to its evaluator call: read the rendering
driver `render.libsonnet` from the embedded data, set up the VM, bind
`"d"` to an import of the doc-util main script, then evaluate the
driver. The trailing JSON decode of the rendered output map is external
(`encoding/json`) and not modelled. -/
def RenderWithJsonnet (filename : String) (opts : Opts)
    (evalSnippet : VM → String → String → Except String String) :
    Except String String :=
  match opts.EmbeddedFS.ReadFile "render.libsonnet" with
  | .error e => .error e
  | .ok render =>
    match newVM filename opts with
    | .error e => .error e
    | .ok vm =>
      evalSnippet (vm.ExtCode "d" "(import \"doc-util/main.libsonnet\")")
        "render.libsonnet" render

/-! ## Concrete fixtures used by witnesses -/

/-- A complete embedded resource set. -/
def fs0 : EmbedFS :=
  [("doc-util/main.libsonnet", "MAIN"),
   ("doc-util/render.libsonnet", "RENDER"),
   ("load.libsonnet", "LOAD_DRIVER"),
   ("render.libsonnet", "RENDER_DRIVER")]

/-- Options over the complete resource set with two search paths. -/
def opts0 : Opts :=
  { JPath := ["/a", "/b"], EmbeddedFS := fs0 }

/-- The importer `newImporter` builds from `opts0`. -/
def i0 : importer :=
  { fi := { JPaths := ["/a", "/b"] },
    embedded := [("main.libsonnet", "MAIN"), ("render.libsonnet", "RENDER")] }

/-- An embedded resource set missing the extraction driver. -/
def fsNoLoadDriver : EmbedFS :=
  [("doc-util/main.libsonnet", "MAIN"),
   ("doc-util/render.libsonnet", "RENDER"),
   ("render.libsonnet", "RENDER_DRIVER")]

/-- A small well-formed package with one field and one sub-package. -/
def pkg0 : Package :=
  .mk "root" "root package" [("f1", ⟨"example"⟩)]
    (.cons "sub" (.mk "sub" "a sub package" [] .nil) .nil)

/-- A concrete evaluator that always produces a fixed scalar tree. -/
def ev0 : VM → String → String → Except String WireData :=
  fun _ _ _ => .ok (.wellFormed (.str "x"))

/-! ## Helper lemmas -/

/-- Unrolling the prefix loop of `importer.Import`: a match anywhere in
the marker list dispatches to the embedded store, otherwise the call
falls through to the filesystem importer. -/
theorem importLoop_eq (i : importer) (disk : Disk) (f path : String)
    (ps : List String) :
    i.importLoop disk f path ps =
      (if ps.any (fun p => goStartsWith path p) then i.loadFromEmbed path
       else i.fi.importFromDisk disk f path) := by
  induction ps with
  | nil => simp [importer.importLoop]
  | cons p rest ih =>
    by_cases h : goStartsWith path p = true
    · simp [importer.importLoop, h]
    · simp only [Bool.not_eq_true] at h
      simp [importer.importLoop, h, ih]

/-- Inversion of `newImporter`: on success, the embedded map holds the
two doc-util scripts keyed by base name and the file importer carries
exactly the caller-supplied search paths. -/
theorem newImporter_ok (opts : Opts) (i : importer)
    (h : newImporter opts = .ok i) :
    ∃ dmain drender,
      alookup opts.EmbeddedFS "doc-util/main.libsonnet" = some dmain ∧
      alookup opts.EmbeddedFS "doc-util/render.libsonnet" = some drender ∧
      i = { fi := { JPaths := opts.JPath },
            embedded := [("main.libsonnet", dmain),
                         ("render.libsonnet", drender)] } := by
  revert h
  unfold newImporter EmbedFS.ReadFile
  cases h1 : alookup opts.EmbeddedFS "doc-util/main.libsonnet" with
  | none => intro h; cases h
  | some dmain =>
    cases h2 : alookup opts.EmbeddedFS "doc-util/render.libsonnet" with
    | none => intro h; cases h
    | some drender =>
      intro h
      cases h
      exact ⟨dmain, drender, rfl, rfl, rfl⟩

/-- Splitting a list free of the separator yields one component. -/
theorem splitCharAux_no_sep (sep : Char) (l : List Char) :
    ∀ acc, sep ∉ l → splitCharAux sep l acc = [String.mk (acc.reverse ++ l)] := by
  induction l with
  | nil => intro acc _; simp [splitCharAux]
  | cons c rest ih =>
    intro acc h
    have hc : ¬ (c = sep) := fun hh => h (hh ▸ List.mem_cons_self c rest)
    simp only [splitCharAux, if_neg hc]
    rw [ih _ (fun hm => h (List.mem_cons_of_mem _ hm))]
    simp

/-- Rebuilding a string from its characters is the identity. -/
theorem mk_data_eq (b : String) : String.mk b.data = b := by
  cases b; rfl

/-- Splitting `"doc-util/" ++ b` at slashes for a slash-free `b`. -/
theorem splitChar_docutil (b : String) (hb : '/' ∉ b.toList) :
    splitChar ("doc-util/" ++ b) '/' = ["doc-util", b] := by
  unfold splitChar
  have h1 : ("doc-util/" ++ b).toList = "doc-util/".toList ++ b.toList := by
    simp [String.toList]
  rw [h1]
  have h3 : "doc-util/".toList = ['d','o','c','-','u','t','i','l','/'] := rfl
  rw [h3]
  simp only [List.cons_append, List.nil_append]
  simp [splitCharAux]
  rw [splitCharAux_no_sep '/' b.data [] hb]
  simp [mk_data_eq]

/-- Strings extending `"doc-util/"` are nonempty. -/
theorem append_ne_empty (b : String) : ("doc-util/" ++ b) ≠ "" := by
  intro h
  have h' := congrArg String.toList h
  simp [String.toList] at h'

/-- `Clean` fixes `"doc-util/" ++ b` when `b` is a regular name: no
slash, nonempty, and not a dot component. -/
theorem goClean_docutil (b : String) (hb : '/' ∉ b.toList)
    (h0 : b ≠ "") (h1 : b ≠ ".") (h2 : b ≠ "..") :
    goClean ("doc-util/" ++ b) = "doc-util/" ++ b := by
  unfold goClean
  rw [if_neg (append_ne_empty b), splitChar_docutil b hb]
  have hhead : ("doc-util/" ++ b).toList = 'd' :: ("oc-util/".toList ++ b.toList) := rfl
  rw [hhead]
  simp only [List.headD_cons]
  simp [cleanStep, h0, h1, h2, joinComps]
  intro hfalse
  exact absurd hfalse (append_ne_empty b)

/-- `Join ["doc-util", b]` for a regular base name `b`. -/
theorem goJoin_docutil (b : String) (hb : '/' ∉ b.toList)
    (h0 : b ≠ "") (h1 : b ≠ ".") (h2 : b ≠ "..") :
    goJoin ["doc-util", b] = "doc-util/" ++ b := by
  unfold goJoin
  simp [h0, joinComps]
  exact goClean_docutil b hb h0 h1 h2

/-- `Base` never yields the empty string. -/
theorem goBase_ne_empty (path : String) : goBase path ≠ "" := by
  unfold goBase
  by_cases hp : path = ""
  · rw [if_pos hp]; decide
  · rw [if_neg hp]
    by_cases hl :
        (path.toList.reverse.dropWhile (fun c => c = '/')).takeWhile
          (fun c => c ≠ '/') = []
    · rw [if_pos hl]; decide
    · rw [if_neg hl]
      intro h
      have h' : ((path.toList.reverse.dropWhile (fun c => c = '/')).takeWhile
          (fun c => c ≠ '/')).reverse = [] := congrArg String.data h
      exact hl (List.reverse_eq_nil_iff.mp h')

/-- When `Base` does not answer `"/"`, its result contains no slash. -/
theorem goBase_no_slash (path : String) (h : goBase path ≠ "/") :
    '/' ∉ (goBase path).toList := by
  unfold goBase at h ⊢
  by_cases hp : path = ""
  · rw [if_pos hp]; decide
  · rw [if_neg hp] at h ⊢
    by_cases hl :
        (path.toList.reverse.dropWhile (fun c => c = '/')).takeWhile
          (fun c => c ≠ '/') = []
    · exact absurd (if_pos hl) h
    · rw [if_neg hl]
      show '/' ∉ ((path.toList.reverse.dropWhile (fun c => c = '/')).takeWhile
          (fun c => c ≠ '/')).reverse
      rw [List.mem_reverse]
      intro hm
      have := List.mem_takeWhile_imp hm
      simp at this

/-! ## Claim theorems -/

/-- C1: the claim says a byte string that fails to deserialize makes
`Transform` return a `TransformError` without terminating the process;
the code instead calls `log.Fatalln`, aborting the process, which the
spec itself flags as a defect. This theorem evaluates the embedded code
at such an input and exhibits the fatal abort. -/
theorem c1_transform_fatal_on_malformed :
    Transform (.malformed "unexpected end of JSON input") =
      .fatal "unexpected end of JSON input" := rfl

/-- C2: for every marker in `docUtilPathPrefixes` matching the start of
the requested path, `importer.Import` resolves from the embedded store
and its result is independent of the on-disk world and of the importing
file's identity — the filesystem importer is never consulted. -/
theorem c2_internal_resolution (i : importer) (importedPath : String)
    (hp : ∃ p ∈ docUtilPathPrefixes, goStartsWith importedPath p = true)
    (disk disk' : Disk) (importedFrom importedFrom' : String) :
    i.Import disk importedFrom importedPath = i.loadFromEmbed importedPath ∧
    i.Import disk importedFrom importedPath =
      i.Import disk' importedFrom' importedPath := by
  obtain ⟨p, hmem, hpre⟩ := hp
  have hany : docUtilPathPrefixes.any (fun p => goStartsWith importedPath p) = true :=
    List.any_eq_true.mpr ⟨p, hmem, hpre⟩
  refine ⟨?_, ?_⟩ <;> simp [importer.Import, importLoop_eq, hany]

/-- C2 witness at the internally-prefixed path `doc-util/main.libsonnet`,
with a same-named file present on one of the two disks. -/
theorem c2_witness :
    i0.Import [("doc-util/main.libsonnet", "DISK")] "from.jsonnet"
        "doc-util/main.libsonnet" =
      i0.loadFromEmbed "doc-util/main.libsonnet" ∧
    i0.Import [("doc-util/main.libsonnet", "DISK")] "from.jsonnet"
        "doc-util/main.libsonnet" =
      i0.Import [] "" "doc-util/main.libsonnet" :=
  c2_internal_resolution i0 "doc-util/main.libsonnet"
    ⟨"doc-util/", by decide, by decide⟩ _ _ _ _

/-- C3: for every path matching a recognized internal marker whose base
name is not one of the two bundled resource names, `importer.Import`
fails with the internal-resource error message — the joined internal
path followed by `" does not exist"`, a format distinct from the
filesystem importer's not-found message — and never falls back to the
filesystem: the result is independent of the disk and of the importing
file. -/
theorem c3_missing_embedded_resource (opts : Opts) (i : importer)
    (hni : newImporter opts = .ok i) (importedPath : String)
    (hp : ∃ p ∈ docUtilPathPrefixes, goStartsWith importedPath p = true)
    (hb1 : goBase importedPath ≠ "main.libsonnet")
    (hb2 : goBase importedPath ≠ "render.libsonnet")
    (disk disk' : Disk) (importedFrom importedFrom' : String) :
    i.Import disk importedFrom importedPath =
      ⟨"", "<internal>/" ++ goJoin ["doc-util", goBase importedPath],
       some (goJoin ["doc-util", goBase importedPath] ++ " does not exist")⟩ ∧
    i.Import disk importedFrom importedPath =
      i.Import disk' importedFrom' importedPath := by
  obtain ⟨dmain, drender, hm, hr, hi⟩ := newImporter_ok opts i hni
  obtain ⟨p, hmem, hpre⟩ := hp
  have hany : docUtilPathPrefixes.any (fun p => goStartsWith importedPath p) = true :=
    List.any_eq_true.mpr ⟨p, hmem, hpre⟩
  subst hi
  refine ⟨?_, ?_⟩ <;>
    simp [importer.Import, importLoop_eq, hany, importer.loadFromEmbed,
      alookup, Ne.symm hb1, Ne.symm hb2]

/-- C3 witness: a request for a nonexistent internal resource, with two
different disks and importing files. -/
theorem c3_witness :
    i0.Import [] "" "doc-util/missing.libsonnet" =
      ⟨"", "<internal>/" ++ goJoin ["doc-util", goBase "doc-util/missing.libsonnet"],
       some (goJoin ["doc-util", goBase "doc-util/missing.libsonnet"] ++
         " does not exist")⟩ ∧
    i0.Import [] "" "doc-util/missing.libsonnet" =
      i0.Import [("doc-util/missing.libsonnet", "DISK")] "f.jsonnet"
        "doc-util/missing.libsonnet" :=
  c3_missing_embedded_resource opts0 i0 rfl "doc-util/missing.libsonnet"
    ⟨"doc-util/", by decide, by decide⟩ (by decide) (by decide) _ _ _ _

/-- C4 counterexample: the prefix-matched path `"doc-util/.."` has base
name `".."`, yet the canonical location the importer reports is
`"<internal>/."` — `filepath.Join` cleans the dot-dot away — which is
not of the claimed form `"<internal>/doc-util/<base>"`. -/
theorem c4_counterexample :
    ("doc-util/" ∈ docUtilPathPrefixes) ∧
    goStartsWith "doc-util/.." "doc-util/" = true ∧
    goBase "doc-util/.." = ".." ∧
    (i0.Import [] "" "doc-util/..").foundAt = "<internal>/." ∧
    (i0.Import [] "" "doc-util/..").foundAt ≠
      "<internal>/doc-util/" ++ goBase "doc-util/.." ∧
    goStartsWith (i0.Import [] "" "doc-util/..").foundAt
      "<internal>/doc-util/" = false := by
  refine ⟨by decide, by decide, by decide, by decide, by decide, by decide⟩

/-- C4 amended: for EVERY prefix-matched path, the embedded store is
consulted with exactly the base name as key and the canonical location
is the synthetic string `"<internal>/" ++ Join("doc-util", base)` —
never a filesystem path; whenever the base name is a regular name (not
`"."`, `".."` or `"/"`), that location is exactly
`"<internal>/doc-util/<base>"`. -/
theorem c4_internal_location (i : importer) (disk : Disk)
    (importedFrom importedPath : String)
    (hp : ∃ p ∈ docUtilPathPrefixes, goStartsWith importedPath p = true) :
    i.Import disk importedFrom importedPath =
      (match alookup i.embedded (goBase importedPath) with
       | some c =>
         ⟨c, "<internal>/" ++ goJoin ["doc-util", goBase importedPath], none⟩
       | none =>
         ⟨"", "<internal>/" ++ goJoin ["doc-util", goBase importedPath],
          some (goJoin ["doc-util", goBase importedPath] ++
            " does not exist")⟩) ∧
    (goBase importedPath ∉ ([".", "..", "/"] : List String) →
      "<internal>/" ++ goJoin ["doc-util", goBase importedPath] =
        "<internal>/doc-util/" ++ goBase importedPath) := by
  obtain ⟨p, hmem, hpre⟩ := hp
  have hany : docUtilPathPrefixes.any (fun p => goStartsWith importedPath p) = true :=
    List.any_eq_true.mpr ⟨p, hmem, hpre⟩
  constructor
  · simp only [importer.Import, importLoop_eq, hany, if_pos,
      importer.loadFromEmbed]
    cases alookup i.embedded (goBase importedPath) <;> simp
  · intro hb
    simp only [List.mem_cons, List.not_mem_nil, or_false, not_or] at hb
    obtain ⟨h1, h2, h3⟩ := hb
    have hslash : '/' ∉ (goBase importedPath).toList := goBase_no_slash _ h3
    have hne : goBase importedPath ≠ "" := goBase_ne_empty _
    rw [goJoin_docutil _ hslash hne h1 h2, ← String.append_assoc]
    rfl

/-- C4 witness at the internally-prefixed path of the bundled main
script. -/
theorem c4_witness :
    (i0.Import [] "f.jsonnet" "doc-util/main.libsonnet" =
      (match alookup i0.embedded (goBase "doc-util/main.libsonnet") with
       | some c =>
         (⟨c, "<internal>/" ++
           goJoin ["doc-util", goBase "doc-util/main.libsonnet"],
           none⟩ : ImportResult)
       | none =>
         ⟨"", "<internal>/" ++
           goJoin ["doc-util", goBase "doc-util/main.libsonnet"],
          some (goJoin ["doc-util", goBase "doc-util/main.libsonnet"] ++
            " does not exist")⟩)) ∧
    (goBase "doc-util/main.libsonnet" ∉ ([".", "..", "/"] : List String) →
      "<internal>/" ++ goJoin ["doc-util", goBase "doc-util/main.libsonnet"] =
        "<internal>/doc-util/" ++ goBase "doc-util/main.libsonnet") :=
  c4_internal_location i0 [] "f.jsonnet" "doc-util/main.libsonnet"
    ⟨"doc-util/", by decide, by decide⟩

/-- C5 counterexample: an embedded resource set missing the extraction
driver `load.libsonnet` (but holding both doc-util scripts) still
constructs the resolver layer successfully — `newImporter` does not
check the driver scripts. -/
theorem c5_counterexample :
    alookup fsNoLoadDriver "load.libsonnet" = none ∧
    newImporter { JPath := [], EmbeddedFS := fsNoLoadDriver } =
      .ok { fi := { JPaths := [] },
            embedded := [("main.libsonnet", "MAIN"),
                         ("render.libsonnet", "RENDER")] } :=
  ⟨rfl, rfl⟩

/-- C5 amended: `newImporter` eagerly reads the two bundled doc-util
scripts and fails if either is missing; the driver scripts are read
eagerly by their entry points — `Extract` reads `load.libsonnet` and
`RenderWithJsonnet` reads `render.libsonnet` before building the VM —
each failing before any evaluation when its driver is missing. -/
theorem c5_eager_resource_reads :
    (∀ opts : Opts,
      alookup opts.EmbeddedFS "doc-util/main.libsonnet" = none ∨
        alookup opts.EmbeddedFS "doc-util/render.libsonnet" = none →
      ∃ e, newImporter opts = .error e) ∧
    (∀ (fn : String) (opts : Opts),
      alookup opts.EmbeddedFS "load.libsonnet" = none →
      ∃ e, ∀ ev, Extract fn opts ev = .error e) ∧
    (∀ (fn : String) (opts : Opts),
      alookup opts.EmbeddedFS "render.libsonnet" = none →
      ∃ e, ∀ ev, RenderWithJsonnet fn opts ev = .error e) := by
  refine ⟨?_, ?_, ?_⟩
  · intro opts h
    cases h1 : alookup opts.EmbeddedFS "doc-util/main.libsonnet" with
    | none =>
      exact ⟨"open doc-util/main.libsonnet: file does not exist",
        by simp [newImporter, EmbedFS.ReadFile, h1]⟩
    | some dmain =>
      cases h with
      | inl h => rw [h] at h1; cases h1
      | inr h =>
        exact ⟨"open doc-util/render.libsonnet: file does not exist",
          by simp [newImporter, EmbedFS.ReadFile, h1, h]⟩
  · intro fn opts h
    exact ⟨"open load.libsonnet: file does not exist",
      fun ev => by simp [Extract, EmbedFS.ReadFile, h]⟩
  · intro fn opts h
    exact ⟨"open render.libsonnet: file does not exist",
      fun ev => by simp [RenderWithJsonnet, EmbedFS.ReadFile, h]⟩

/-- C5 witness: over an empty embedded set, construction and both entry
points fail before evaluation. -/
theorem c5_witness :
    (∃ e, newImporter { JPath := [], EmbeddedFS := [] } = .error e) ∧
    (∃ e, ∀ ev, Extract "main.jsonnet" { JPath := [], EmbeddedFS := [] } ev =
      .error e) ∧
    (∃ e, ∀ ev,
      RenderWithJsonnet "main.jsonnet" { JPath := [], EmbeddedFS := [] } ev =
        .error e) :=
  ⟨c5_eager_resource_reads.1 _ (Or.inl rfl),
   c5_eager_resource_reads.2.1 _ _ rfl,
   c5_eager_resource_reads.2.2 _ _ rfl⟩

/-- C6: when no recognized internal marker matches, `importer.Import`
delegates the identical request to the wrapped filesystem importer,
which is configured with exactly the caller-supplied search-path list
and resolves by first-directory-wins ordered search. -/
theorem c6_filesystem_delegation (opts : Opts) (i : importer)
    (hni : newImporter opts = .ok i)
    (disk : Disk) (importedFrom importedPath : String)
    (hp : ∀ p ∈ docUtilPathPrefixes, goStartsWith importedPath p = false) :
    i.Import disk importedFrom importedPath =
      i.fi.importFromDisk disk importedFrom importedPath ∧
    i.fi.JPaths = opts.JPath := by
  have hany : docUtilPathPrefixes.any (fun p => goStartsWith importedPath p) =
      false := by
    rw [List.any_eq_false]
    intro p hmem
    simp [hp p hmem]
  obtain ⟨dm, dr, _, _, hi⟩ := newImporter_ok opts i hni
  subst hi
  exact ⟨by simp [importer.Import, importLoop_eq, hany], rfl⟩

/-- C6 witness: a plain library path resolved from the first of two
search directories both containing the file. -/
theorem c6_witness :
    i0.Import [("/a/lib/x.ext", "A"), ("/b/lib/x.ext", "B")] "/w/f.jsonnet"
        "lib/x.ext" =
      i0.fi.importFromDisk [("/a/lib/x.ext", "A"), ("/b/lib/x.ext", "B")]
        "/w/f.jsonnet" "lib/x.ext" ∧
    i0.fi.JPaths = opts0.JPath :=
  c6_filesystem_delegation opts0 i0 rfl _ _ _ (by decide)

/-- C7: a successfully built evaluator session binds the external
identifier `"main"` to an import expression for the entry file, and its
sole import mechanism is the custom importer — the default importer of
`MakeVM` has been replaced. -/
theorem c7_session_binding (mainFName : String) (opts : Opts) (vm : VM)
    (h : newVM mainFName opts = .ok vm) :
    (∃ i, newImporter opts = .ok i ∧ vm.vmImporter = .custom i) ∧
    vm.extCodes = [("main", "(import \"" ++ mainFName ++ "\")")] := by
  revert h
  unfold newVM
  cases hni : newImporter opts with
  | error e => intro h; cases h
  | ok imp =>
    intro h
    cases h
    exact ⟨⟨imp, rfl, rfl⟩, rfl⟩

/-- C7 witness: the session built for a concrete entry file over the
complete resource set. -/
theorem c7_witness :
    (∃ i, newImporter opts0 = .ok i ∧
      (VM.mk (.custom i0)
        [("main", "(import \"main.jsonnet\")")]).vmImporter = .custom i) ∧
    (VM.mk (.custom i0) [("main", "(import \"main.jsonnet\")")]).extCodes =
      [("main", "(import \"" ++ "main.jsonnet" ++ "\")")] :=
  c7_session_binding "main.jsonnet" opts0
    (VM.mk (.custom i0) [("main", "(import \"main.jsonnet\")")]) rfl

/-- C9: `Transform` and `Load` are deterministic and pure — equal inputs
(data, entry file, options, evaluator) give equal results; the model
reads nothing beyond its arguments, as the source functions read no
global state. -/
theorem c9_determinism (d1 d2 : WireData) (fn1 fn2 : String)
    (o1 o2 : Opts) (ev1 ev2 : VM → String → String → Except String WireData)
    (hd : d1 = d2) (hf : fn1 = fn2) (ho : o1 = o2) (he : ev1 = ev2) :
    Transform d1 = Transform d2 ∧ Load fn1 o1 ev1 = Load fn2 o2 ev2 := by
  subst hd; subst hf; subst ho; subst he
  exact ⟨rfl, rfl⟩

/-- C9 witness at a concrete tree, entry file, options and evaluator. -/
theorem c9_witness :
    Transform (.wellFormed (.str "x")) = Transform (.wellFormed (.str "x")) ∧
    Load "main.jsonnet" opts0 ev0 = Load "main.jsonnet" opts0 ev0 :=
  c9_determinism _ _ _ _ _ _ _ _ rfl rfl rfl rfl

/-- C10: whenever `Transform` returns at all rather than aborting, its
declared error result is `nil`: the only return statement is
`return &p, nil`. -/
theorem c10_error_result_always_nil (data : WireData) (p : Package)
    (e : Option String) (h : Transform data = .ok p e) : e = none := by
  cases data with
  | malformed m => cases h
  | wellFormed t => cases h; rfl

/-- C10 witness at a concrete scalar tree. -/
theorem c10_witness : (none : Option String) = none :=
  c10_error_result_always_nil (.wellFormed (.str "x"))
    (fastLoad (.str "x")) none rfl

/-- Absence of a key distributes over list append. -/
theorem keyAbsent_append (key : String) (a b : List String) :
    keyAbsent key (a ++ b) = (keyAbsent key a && keyAbsent key b) := by
  induction a with
  | nil => simp [keyAbsent]
  | cons k rest ih =>
    by_cases h : k = key <;> simp [keyAbsent, h, ih]

/-- Classifying a run of encoded field entries prepends exactly those
fields, provided none of them is keyed by the `"info"` marker. -/
theorem loadEntries_append_fields (fields : List (String × Field)) (m : RawMap)
    (hk : keyAbsent "info" (fields.map Prod.fst) = true) :
    loadEntries (appendMap (encodeFields fields) m) =
      ((fields ++ (loadEntries m).1, (loadEntries m).2)) := by
  induction fields with
  | nil => simp [encodeFields, appendMap]
  | cons kf rest ih =>
    obtain ⟨k, f⟩ := kf
    simp only [List.map_cons, keyAbsent] at hk
    by_cases hki : k = "info"
    · rw [if_pos hki] at hk; cases hk
    · rw [if_neg hki] at hk
      simp [encodeFields, appendMap, loadEntries, hki, encodeField,
        RawMap.lookup, ih hk]

/-- Classifying an encoded sub-package entry appends one sub-package:
the encoding opens with the `"info"` marker, so it is recognized as a
package node. -/
theorem loadEntries_cons_package (k : String) (p : Package) (m : RawMap)
    (hk : ¬ (k = "info")) :
    loadEntries (.cons k (encodePackage p) m) =
      ((loadEntries m).1,
       .cons k (fastLoad (encodePackage p)) (loadEntries m).2) := by
  cases p with
  | mk name help fields subs =>
    simp only [encodePackage]
    simp [loadEntries, hk, RawMap.lookup]

mutual
/-- Decoding inverts encoding on well-formed packages. -/
theorem fastLoad_encodePackage : ∀ (p : Package), p.wfb = true →
    fastLoad (encodePackage p) = p
  | .mk name help fields subs, h => by
    simp only [Package.wfb, keyAbsent_append, Bool.and_eq_true] at h
    obtain ⟨⟨⟨hf, hs⟩, hd⟩, hw⟩ := h
    have hsub := loadEntries_encodeSubs subs hs hw
    simp only [encodePackage]
    simp [fastLoad, loadEntries, RawMap.lookup, infoRaw, getStr,
      loadEntries_append_fields _ _ hf, hsub]
/-- Decoding inverts encoding on well-formed sub-package lists. -/
theorem loadEntries_encodeSubs : ∀ (s : SubList),
    keyAbsent "info" s.keys = true → s.allWf = true →
    loadEntries (encodeSubs s) = ([], s)
  | .nil, _, _ => by simp [encodeSubs, loadEntries]
  | .cons k p rest, hk, hw => by
    simp only [SubList.keys, keyAbsent] at hk
    by_cases hki : k = "info"
    · rw [if_pos hki] at hk; cases hk
    · rw [if_neg hki] at hk
      simp only [SubList.allWf, Bool.and_eq_true] at hw
      have h1 := fastLoad_encodePackage p hw.1
      have h2 := loadEntries_encodeSubs rest hk hw.2
      simp only [encodeSubs]
      rw [loadEntries_cons_package k p _ hki, h1, h2]
end

/-- C8: the transform stage inverts the raw-tree serialization — for
every well-formed package `p` using only recognized node kinds,
`Transform (serialize p)` returns exactly `p` (with the nil error of
the source's single return). -/
theorem c8_transform_serialize_roundtrip (p : Package) (h : p.wfb = true) :
    Transform (serialize p) = .ok p none := by
  have hp := fastLoad_encodePackage p h
  simp [Transform, serialize, unmarshalDS, hp]

/-- C8 witness: the round trip at a concrete two-level package. -/
theorem c8_witness :
    pkg0.wfb = true ∧ Transform (serialize pkg0) = .ok pkg0 none :=
  ⟨by decide, c8_transform_serialize_roundtrip pkg0 (by decide)⟩

end Docsonnet
